import Mathlib

/-!
Verification of the chatterbox T3 inference-acceleration core.

The definitions below are shallow embeddings of the token-generation
machinery in `src/chatterbox/models/t3/inference_optimized.py`,
`src/chatterbox/models/t3/direct_inference.py`, and the cache-builder
methods installed by `apply_faster_inference.py`.  Tensors are modelled
by lists, machine floats by exact rationals or reals, and the opaque
transformer forward pass together with the random draw performed by
`torch.multinomial` is abstracted into a sampler stream
`samp : Nat → Nat` giving the token drawn at each decode iteration.
-/

/-- Hard token ceiling: `TOKEN_LIMIT` from `t3_cuda_graphs`, set to 1500
by `apply_faster_inference.py` / `implement_faster_inference.py`. -/
def TOKEN_LIMIT : Nat := 1500

/-! ## CFG batching (claim C2)

`inference_optimized.py` lines 70-76 (`generate_t3_token`) and
`direct_inference.py` lines 196-203 (`DirectT3Inference.generate_fast`). -/

/-- `effective_batch_size = 2 if cfg_weight > 0.0 else 1`
(`inference_optimized.py` line 212). -/
def effectiveBatchSize {α : Type} [LinearOrderedField α] (w : α) : Nat :=
  if 0 < w then 2 else 1

/-- The CFG combination `logits_cond + cfg_weight * (logits_cond - logits_uncond)`
applied elementwise (`inference_optimized.py` line 76). -/
def cfgCombine {α : Type} [LinearOrderedField α] (w : α) (cond uncond : List α) : List α :=
  List.zipWith (fun c u => c + w * (c - u)) cond uncond

/-- Logits selection of `generate_t3_token` (`inference_optimized.py` lines 70-76):
row 0 of the batch is the conditional logits; when `cfg_weight > 0` row 1 is
read as the unconditional logits and the CFG combination is formed, otherwise
row 0 is used directly.  `rows` models `output_logits[:, 0, :]`. -/
def stepCfgLogits {α : Type} [LinearOrderedField α] (w : α) (rows : List (List α)) : List α :=
  if 0 < w then cfgCombine w (rows.headD []) ((rows.drop 1).headD []) else rows.headD []

/-- Logits selection of the direct-inference loop
(`direct_inference.py` lines 196-203): the CFG combination is only formed when
`cfg_weight > 0.0 and logits.shape[0] == 2`; afterwards row 0 is taken. -/
def directCfgLogits {α : Type} [LinearOrderedField α] (w : α) (rows : List (List α)) : List α :=
  if 0 < w ∧ rows.length = 2 then cfgCombine w (rows.headD []) ((rows.drop 1).headD [])
  else rows.headD []

/-! ## Static KV-cache setup (claim C5)

`inference_optimized.py` lines 229-240: a `StaticCache` is allocated only when
`self.kv_cache` does not exist yet; otherwise the existing handle is reset and
reused, with no compatibility check against the new request. -/

/-- Shape-relevant identity of an allocated `StaticCache` handle. -/
structure CacheHandle where
  batchSize : Nat
  maxCacheLen : Nat
deriving DecidableEq

/-- What the cache-setup branch did with the handle. -/
inductive CacheAction
  | allocated
  | reused
deriving DecidableEq

/-- Cache setup of `inference_optimized` (`inference_optimized.py` lines 229-240):
`if not hasattr(self, 'kv_cache') or self.kv_cache is None:` allocate a
`StaticCache` sized by the current request, `else:` call `reset()` on the
existing handle (a logical clear that keeps its shape) and reuse it. -/
def setupKvCache (existing : Option CacheHandle) (effBatch maxLen : Nat) :
    CacheHandle × CacheAction :=
  match existing with
  | none => (⟨effBatch, maxLen⟩, CacheAction.allocated)
  | some h => (h, CacheAction.reused)

/-! ## Embedding cache builders (claim C7)

The methods `get_speech_pos_embedding_cache` and `init_speech_embedding_cache`
installed into `t3.py` by `apply_faster_inference.py` (lines 86-104 of the
injected block).  A cache is modelled by its size (number of rows) and dtype;
dtypes are coded as naturals. -/

/-- Shape-relevant identity of an embedding cache tensor. -/
structure EmbCache where
  size : Nat
  dtype : Nat
deriving DecidableEq

/-- `get_speech_pos_embedding_cache(max_gen_tokens, dtype)`
(`apply_faster_inference.py`, injected lines 86-96): if the cache is absent or
`size(0) < max_gen_tokens`, rebuild by stacking `max_gen_tokens` positional
embeddings and moving to the device — note the rebuild keeps the dtype of the
source embeddings (`srcDtype`), the `dtype` argument is not applied; `elif`
the dtype mismatches, convert; else return the cache unchanged. -/
def getSpeechPosEmbeddingCache (existing : Option EmbCache)
    (maxGenTokens reqDtype srcDtype : Nat) : EmbCache :=
  match existing with
  | none => ⟨maxGenTokens, srcDtype⟩
  | some c =>
      if c.size < maxGenTokens then ⟨maxGenTokens, srcDtype⟩
      else if c.dtype ≠ reqDtype then ⟨c.size, reqDtype⟩
      else c

/-- `init_speech_embedding_cache(vocab_size, dtype)`
(`apply_faster_inference.py`, injected lines 98-104): if the cache is absent or
`size(0) < vocab_size`, rebuild as `speech_emb.weight.detach().clone().to(dtype)`
— the rebuilt size is the embedding table's row count `weightRows` and the
requested dtype is applied; `elif` the dtype mismatches, convert; else return
the cache unchanged. -/
def initSpeechEmbeddingCache (existing : Option EmbCache)
    (vocabSize reqDtype weightRows : Nat) : EmbCache :=
  match existing with
  | none => ⟨weightRows, reqDtype⟩
  | some c =>
      if c.size < vocabSize then ⟨weightRows, reqDtype⟩
      else if c.dtype ≠ reqDtype then ⟨c.size, reqDtype⟩
      else c

/-! ## Generation driver loop (claims C3, C4, C8, C9, C10)

`inference_optimized.py` lines 197-343 (`inference_optimized`).  The buffer
`generated_ids` has shape `(1, bos_len + TOKEN_LIMIT)` with `bos_len = 1`,
initialised to the pad sentinel `stop_speech_token + 1` with the BOS token at
position 0.  Iteration `i` of the decode loop (default backend, stride 1)
periodically checks for the stop token and otherwise writes the sampled token
at position `i_tensor = indices[i] = i + 1`.  The opaque model forward pass,
the processor pipeline and the `torch.multinomial` draw are abstracted into
the sampler stream `samp`. -/

/-- The buffer `generated_ids` right after initialisation
(`inference_optimized.py` lines 224-225): BOS at position 0, pad sentinel
`stop + 1` everywhere else. -/
def initBuffer (start stop : Nat) : List Nat :=
  start :: List.replicate TOKEN_LIMIT (stop + 1)

/-- The periodic stop-token poll guard of loop iteration `i`
(`inference_optimized.py` line 289, with `stride_length = 1`):
`i > length_guesstimate and i % 20 == 0`. -/
def eosCheck (lengthGuess i : Nat) : Bool :=
  decide (lengthGuess < i) && (i % 20 == 0)

/-- One iteration of the decode loop (`inference_optimized.py` lines 285-328)
acting on the pair (buffer, broken-flag); a Python `break` is modelled by
setting the flag, after which remaining iterations do nothing. -/
def loopIter (stop lengthGuess : Nat) (samp : Nat → Nat)
    (s : List Nat × Bool) (i : Nat) : List Nat × Bool :=
  if s.2 then s
  else if eosCheck lengthGuess i && decide (stop ∈ s.1) then (s.1, true)
  else (s.1.set (i + 1) (samp i), false)

/-- State of the decode loop after its first `n` iterations. -/
def loopRun (start stop lengthGuess : Nat) (samp : Nat → Nat) (n : Nat) :
    List Nat × Bool :=
  (List.range n).foldl (loopIter stop lengthGuess samp) (initBuffer start stop, false)

/-- Index of the first occurrence of the stop token in the buffer
(`inference_optimized.py` line 337:
`(generated_ids == stop_token_tensor).nonzero(...)[1]`, first entry). -/
def firstStopIdx (stop : Nat) : List Nat → Option Nat
  | [] => none
  | x :: xs => if x = stop then some 0 else (firstStopIdx stop xs).map (· + 1)

/-- Python slice `l[:k]` for a possibly negative `k`. -/
def pyTake {α : Type} (k : Int) (l : List α) : List α :=
  if 0 ≤ k then l.take k.toNat else l.take (l.length - min l.length k.natAbs)

/-- The token-budget clamp (`inference_optimized.py` lines 218-220):
`if max_cache_len < seq_len + max_new_tokens: max_new_tokens = max_cache_len - seq_len`. -/
def clampMNT (maxCacheLen seqLen maxNewTokens : Int) : Int :=
  if maxCacheLen < seqLen + maxNewTokens then maxCacheLen - seqLen else maxNewTokens

/-- The generation driver `inference_optimized`
(`inference_optimized.py` lines 197-343), restricted to its observable token
behaviour: clamp the budget to the cache capacity (lines 218-220), enforce the
hard ceiling `assert max_new_tokens < TOKEN_LIMIT` (line 222, modelled as an
error result), run the decode loop, then slice the buffer at the first stop
token inclusive, or at `bos_len + max_new_tokens` when no stop token occurs
(lines 336-343). -/
def inferenceOptimizedTokens (start stop lengthGuess seqLen maxCacheLen mntReq : Nat)
    (samp : Nat → Nat) : Except String (List Nat) :=
  let M : Int := clampMNT maxCacheLen seqLen mntReq
  if (TOKEN_LIMIT : Int) ≤ M then Except.error "max_new_tokens too large"
  else
    let buf := (loopRun start stop lengthGuess samp M.toNat).1
    match firstStopIdx stop buf with
    | some k => Except.ok (buf.take (k + 1))
    | none => Except.ok (pyTake (1 + M) buf)

/-- Closed form of the decode-loop buffer after `w` tokens have been written:
BOS, then the sampled tokens, then the untouched pad-sentinel tail. -/
def mkBuf (start stop : Nat) (samp : Nat → Nat) (w : Nat) : List Nat :=
  start :: (List.map samp (List.range w) ++ List.replicate (TOKEN_LIMIT - w) (stop + 1))

/-- The `generated_ids` argument handed to `generate_t3_token` at loop
iteration `n` (`inference_optimized.py` line 313): the entire fixed-length
buffer, not merely the really generated prefix. -/
def stepHistory (start stop lengthGuess : Nat) (samp : Nat → Nat) (n : Nat) : List Nat :=
  (loopRun start stop lengthGuess samp n).1

/-! ## Direct-inference loop (claims C1, C3)

`direct_inference.py` lines 182-258 (`DirectT3Inference.generate_fast`):
`generated_tokens` starts as `[start_speech_token]`; each iteration samples a
token, breaks *before appending* when it equals the stop token, and the final
return value drops the BOS (`generated_tokens[1:]`). -/

/-- The accumulation loop of `generate_fast` (`direct_inference.py`
lines 191-247), with the sampled token at iteration `i` abstracted as `samp i`. -/
def directGo (stop : Nat) (samp : Nat → Nat) : Nat → Nat → List Nat → List Nat
  | _, 0, acc => acc
  | i, fuel + 1, acc =>
      if samp i = stop then acc
      else directGo stop samp (i + 1) fuel (acc ++ [samp i])

/-- Token output of `DirectT3Inference.generate_fast`
(`direct_inference.py` lines 182-258): run the loop from `[start]`, then
return `generated_tokens[1:]` (BOS dropped; the stop token is never appended). -/
def directGenerateFast (start stop maxNewTokens : Nat) (samp : Nat → Nat) : List Nat :=
  (directGo stop samp 0 maxNewTokens [start]).drop 1

/-! ## Logits processor pipeline (claims C1, C10)

Stage order in `generate_t3_token` (`inference_optimized.py` lines 78-96):
repetition penalty (line 80), temperature (line 86), min-p (line 90),
top-p (line 92), then softmax + `torch.multinomial`.  Stage order in the
direct-inference loop (`direct_inference.py` lines 205-222): temperature
(line 207), repetition penalty only when `len(generated_tokens) > 1`
(lines 210-212), min-p only when `min_p > 0` (line 216), top-p only when
`top_p < 1.0` (line 218). -/

/-- Repetition-penalty recursion: token id `t` is the index of the head
element. -/
def repPenaltyAux {α : Type} [LinearOrderedField α] (p : α) (hist : List Nat) :
    Nat → List α → List α
  | _, [] => []
  | t, x :: xs => (if t ∈ hist then x / p else x) :: repPenaltyAux p hist (t + 1) xs

/-- Modelled from the spec: the repetition-penalty stage is the external
`RepetitionPenaltyLogitsProcessor` from the `transformers` dependency, whose
code is not part of this repository; spec section 4.3 stage 1 specifies it as
dividing the logit of every token already present in `history_tokens` by the
penalty factor, leaving other logits unchanged. -/
def repPenalty {α : Type} [LinearOrderedField α] (p : α) (hist : List Nat)
    (l : List α) : List α :=
  repPenaltyAux p hist 0 l

/-- Temperature stage (`inference_optimized.py` lines 85-86,
`direct_inference.py` lines 206-207): `if temperature != 1.0:
logits = logits / temperature`. -/
def tempScale {α : Type} [LinearOrderedField α] (T : α) (l : List α) : List α :=
  if T ≠ 1 then l.map (· / T) else l

/-- Softmax over a list of real logits. -/
noncomputable def softmaxR (l : List ℝ) : List ℝ :=
  l.map (fun x => Real.exp x / (l.map Real.exp).sum)

/-- The "−∞ equivalent large negative" masking value of spec section 4.3. -/
noncomputable def FILTER_VALUE : ℝ := -(10 ^ 9)

/-- Modelled from the spec: `FastMinPLogitsWarper`
(`chatterbox/models/t3/fast_min_p_warper.py`) is referenced by the repository
but its file is not under `src/`; spec section 4.3 stage 3 specifies it as
computing the max probability of the softmaxed distribution and masking every
token whose probability falls below `min_p * max_probability` to a −∞
equivalent. -/
noncomputable def minPWarp (m : ℝ) (l : List ℝ) : List ℝ :=
  (l.zip (softmaxR l)).map
    (fun xp => if xp.2 < m * ((softmaxR l).foldr max 0) then FILTER_VALUE else xp.1)

/-- Modelled from the spec: `FastTopPLogitsWarper`
(`chatterbox/models/t3/fast_top_p_warper.py`) is referenced by the repository
but its file is not under `src/`; spec section 4.3 stage 4 specifies it as
keeping the smallest descending-sorted prefix of the probabilities whose
cumulative mass reaches `top_p` and masking the rest: a token survives exactly
when the total probability of strictly more probable tokens is still below
`top_p` (boundary ties kept). -/
noncomputable def topPWarp (q : ℝ) (l : List ℝ) : List ℝ :=
  (l.zip (softmaxR l)).map
    (fun xp =>
      if q ≤ ((softmaxR l).filter (fun r => decide (xp.2 < r))).sum then FILTER_VALUE
      else xp.1)

/-- The processor pipeline in the order stated by the spec (section 4.3 and
claim C1): repetition penalty, then temperature scaling, then min-p filtering,
then top-p filtering.  This definition follows the spec's words and is the
yardstick the two code paths are compared against. -/
noncomputable def claimedStepPipeline (p T m q : ℝ) (hist : List Nat) (l : List ℝ) :
    List ℝ :=
  topPWarp q (minPWarp m (tempScale T (repPenalty p hist l)))

/-- The processor chain of `generate_t3_token`
(`inference_optimized.py` lines 78-92), in source order: repetition penalty
(line 80, the processor is always installed by `init_processors`), temperature
(line 86), min-p (line 90), top-p (line 92). -/
noncomputable def optimizedStepPipeline (p T m q : ℝ) (hist : List Nat) (l : List ℝ) :
    List ℝ :=
  topPWarp q (minPWarp m (tempScale T (repPenalty p hist l)))

/-- Per-step logits of `generate_t3_token` (`inference_optimized.py`
lines 70-92): CFG combination first, then the processor chain. -/
noncomputable def generateT3TokenLogits (w p T m q : ℝ) (rows : List (List ℝ))
    (hist : List Nat) : List ℝ :=
  optimizedStepPipeline p T m q hist (stepCfgLogits w rows)

/-- The processor chain of the direct-inference loop
(`direct_inference.py` lines 205-218), in source order: temperature first
(line 207), then repetition penalty guarded by `len(generated_tokens) > 1`
(lines 210-212), then min-p guarded by `min_p > 0` (line 216), then top-p
guarded by `top_p < 1.0` (line 218). -/
noncomputable def directStepPipeline (p T m q : ℝ) (hist : List Nat) (l : List ℝ) :
    List ℝ :=
  let l1 := tempScale T l
  let l2 := if 1 < hist.length then repPenalty p hist l1 else l1
  let l3 := if 0 < m then minPWarp m l2 else l2
  if q < 1 then topPWarp q l3 else l3

/-! ## CUDA-graph wrapper guard discipline (claim C6)

`inference_optimized.py` lines 255-273 build a `T3StepCUDAGraphWrapper` and
call `guard()` (line 267) before entering the decode loop, whose default
backend `cudagraphs-manual` routes every step through the wrapper
(lines 269-273 and 307-323). -/

/-- Execution events of the captured-graph machinery. -/
inductive GraphEvent
  | guardEv : Bool → GraphEvent
  | capture : GraphEvent
  | replay : GraphEvent
deriving DecidableEq

/-- Address-level state of the wrapper: the static-tensor address the current
captured graph was recorded against, and whether a capture exists. -/
structure WrapperState where
  staticAddr : Nat
  hasGraph : Bool
deriving DecidableEq

/-- Modelled from the spec: `T3StepCUDAGraphWrapper.__call__`
(`chatterbox/models/t3/t3_cuda_graphs.py`) is referenced by the repository but
its file is not under `src/`; spec section 4.5 specifies that `guard()` is
performed before each replay to check that the static tensor addresses the
graph was captured against still match, and that a mismatch forces re-capture
rather than replay against stale memory.  `cur` is the address of the current
step tensors. -/
def wrapperCall (st : WrapperState) (cur : Nat) : List GraphEvent × WrapperState :=
  if st.hasGraph && (st.staticAddr == cur) then
    ([GraphEvent.guardEv true, GraphEvent.replay], st)
  else
    ([GraphEvent.guardEv false, GraphEvent.capture, GraphEvent.replay], ⟨cur, true⟩)

/-- Modelled from the spec: the driver-level `self.cudagraph_wrapper.guard()`
call (`inference_optimized.py` line 267) validates the static addresses and
invalidates the capture on mismatch, without replaying anything. -/
def guardOnly (st : WrapperState) (cur : Nat) : GraphEvent × WrapperState :=
  if st.hasGraph && (st.staticAddr == cur) then (GraphEvent.guardEv true, st)
  else (GraphEvent.guardEv false, ⟨st.staticAddr, false⟩)

/-- Event trace of the decode loop from iteration `i` for `fuel` further
iterations, each routed through the wrapper (`inference_optimized.py`
lines 285-323 with the default `cudagraphs-manual` backend). -/
def loopTrace (addrs : Nat → Nat) (st : WrapperState) : Nat → Nat → List GraphEvent
  | _, 0 => []
  | i, fuel + 1 =>
      (wrapperCall st (addrs i)).1 ++
        loopTrace addrs (wrapperCall st (addrs i)).2 (i + 1) fuel

/-- Full event trace of a generation request: the driver guard of
`inference_optimized.py` line 267 followed by the wrapped decode loop. -/
def decodeGraphTrace (addrs : Nat → Nat) (st : WrapperState) (steps : Nat) :
    List GraphEvent :=
  (guardOnly st (addrs 0)).1 :: loopTrace addrs (guardOnly st (addrs 0)).2 0 steps

/-- Left-to-right scan checking that every replay event is preceded by a guard
event with no other replay in between; the flag records whether a guard has
been seen since the last replay. -/
def replaysGuarded : List GraphEvent → Bool → Bool
  | [], _ => true
  | GraphEvent.guardEv _ :: rest, _ => replaysGuarded rest true
  | GraphEvent.capture :: rest, f => replaysGuarded rest f
  | GraphEvent.replay :: rest, f => f && replaysGuarded rest false

/-! # Theorems -/

/-! ## Claim C2: CFG combination in the step function -/

/-- C2: in the step function, if `cfg_weight > 0` the batch has two rows and
the logits handed to the processor pipeline and sampler equal
`logits_cond + cfg_weight * (logits_cond - logits_uncond)` with row 0 the
conditional and row 1 the unconditional logits; if `cfg_weight == 0` the row-0
logits are used directly and no unconditional row participates (the result is
independent of every row but row 0).  The same holds for the CFG branch of the
direct-inference loop. -/
theorem c2_cfg_logits {α : Type} [LinearOrderedField α] :
    (∀ (w : α) (c u : List α), 0 < w →
        stepCfgLogits w [c, u] = List.zipWith (fun a b => a + w * (a - b)) c u ∧
        effectiveBatchSize w = 2) ∧
    (∀ rows : List (List α),
        stepCfgLogits (0 : α) rows = rows.headD [] ∧
        effectiveBatchSize (0 : α) = 1) ∧
    (∀ rows rows' : List (List α), rows.headD [] = rows'.headD [] →
        stepCfgLogits (0 : α) rows = stepCfgLogits (0 : α) rows') ∧
    (∀ (w : α) (c u : List α), 0 < w →
        directCfgLogits w [c, u] = List.zipWith (fun a b => a + w * (a - b)) c u) ∧
    (∀ rows : List (List α), directCfgLogits (0 : α) rows = rows.headD []) := by
  refine ⟨fun w c u hw => ⟨?_, ?_⟩, fun rows => ⟨?_, ?_⟩, fun rows rows' h => ?_,
      fun w c u hw => ?_, fun rows => ?_⟩
  · simp [stepCfgLogits, cfgCombine, hw]
  · simp [effectiveBatchSize, hw]
  · simp [stepCfgLogits, lt_irrefl]
  · simp [effectiveBatchSize, lt_irrefl]
  · simpa [stepCfgLogits, lt_irrefl] using h
  · simp [directCfgLogits, cfgCombine, hw]
  · simp [directCfgLogits, lt_irrefl]

/-- Witness for C2 at a concrete input. -/
theorem c2_cfg_logits_witness :
    stepCfgLogits (2 : ℚ) [[1, 0], [0, 1]] =
      List.zipWith (fun a b => a + 2 * (a - b)) [1, 0] [0, 1] ∧
    effectiveBatchSize (2 : ℚ) = 2 :=
  (c2_cfg_logits (α := ℚ)).1 2 [1, 0] [0, 1] (by norm_num)

/-! ## Claim C5: incompatible KV-cache handles are silently reused -/

/-- C5 (failing-input evaluation): once a KV-cache handle exists, the setup
code of `inference_optimized` reuses it unconditionally, never allocating a
fresh one and never raising.  At the failing input — a first request with
`cfg_weight = 0` having allocated a batch-1 handle, followed by a request with
`cfg_weight = 1/2` whose effective batch size is 2 — the incompatible batch-1
handle is reused, contradicting the claim that the manager allocates a new
handle or raises a configuration error. -/
theorem c5_incompatible_cache_reused :
    (∀ (h : CacheHandle) (eb ml : Nat),
        setupKvCache (some h) eb ml = (h, CacheAction.reused)) ∧
    (setupKvCache none (effectiveBatchSize (0 : ℚ)) 2048 =
      (⟨1, 2048⟩, CacheAction.allocated)) ∧
    effectiveBatchSize ((1 : ℚ) / 2) = 2 ∧
    setupKvCache (some ⟨1, 2048⟩) (effectiveBatchSize ((1 : ℚ) / 2)) 2048 =
      (⟨1, 2048⟩, CacheAction.reused) ∧
    (setupKvCache (some ⟨1, 2048⟩) (effectiveBatchSize ((1 : ℚ) / 2)) 2048).1.batchSize ≠
      effectiveBatchSize ((1 : ℚ) / 2) := by
  have h2 : effectiveBatchSize ((1 : ℚ) / 2) = 2 := by norm_num [effectiveBatchSize]
  have h1 : effectiveBatchSize (0 : ℚ) = 1 := by simp [effectiveBatchSize]
  refine ⟨fun h eb ml => rfl, ?_, h2, ?_, ?_⟩
  · rw [h1]; rfl
  · rfl
  · rw [h2]; simp [setupKvCache]

/-! ## Claim C7: embedding cache builders -/

/-- C7 (amended): if an existing speech-token or positional embedding cache
already covers the requested size and dtype it is returned unchanged; a
requested size exceeding capacity triggers a full rebuild (never a partial
growth).  The rebuilt speech-token cache carries the embedding table's full
row count and the requested dtype, but the rebuilt positional cache keeps the
dtype of the source embeddings — the requested dtype is applied to it only on
a later call that finds the size sufficient. -/
theorem c7_embedding_cache_builders :
    (∀ (c : EmbCache) (n rd sd : Nat), n ≤ c.size → c.dtype = rd →
        getSpeechPosEmbeddingCache (some c) n rd sd = c) ∧
    (∀ (c : EmbCache) (v rd wr : Nat), v ≤ c.size → c.dtype = rd →
        initSpeechEmbeddingCache (some c) v rd wr = c) ∧
    (∀ (c : EmbCache) (n rd sd : Nat), c.size < n →
        getSpeechPosEmbeddingCache (some c) n rd sd = ⟨n, sd⟩) ∧
    (∀ n rd sd : Nat, getSpeechPosEmbeddingCache none n rd sd = ⟨n, sd⟩) ∧
    (∀ (c : EmbCache) (v rd wr : Nat), c.size < v →
        initSpeechEmbeddingCache (some c) v rd wr = ⟨wr, rd⟩) ∧
    (∀ v rd wr : Nat, initSpeechEmbeddingCache none v rd wr = ⟨wr, rd⟩) := by
  refine ⟨fun c n rd sd hn hd => ?_, fun c v rd wr hv hd => ?_,
      fun c n rd sd hn => ?_, fun n rd sd => rfl,
      fun c v rd wr hv => ?_, fun v rd wr => rfl⟩
  · simp [getSpeechPosEmbeddingCache, Nat.not_lt.2 hn, hd]
  · simp [initSpeechEmbeddingCache, Nat.not_lt.2 hv, hd]
  · simp [getSpeechPosEmbeddingCache, hn]
  · simp [initSpeechEmbeddingCache, hv]

/-- C7 counterexample: requesting a grow of the positional cache from 5 to 10
rows with dtype 1 while the source embeddings have dtype 0 rebuilds at the
requested size but with dtype 0, refuting "the rebuilt cache has the requested
size and dtype". -/
theorem c7_counterexample :
    (getSpeechPosEmbeddingCache (some ⟨5, 0⟩) 10 1 0).size = 10 ∧
    (getSpeechPosEmbeddingCache (some ⟨5, 0⟩) 10 1 0).dtype ≠ 1 := by decide

/-- Witness for C7 at a concrete input. -/
theorem c7_embedding_cache_builders_witness :
    getSpeechPosEmbeddingCache (some ⟨8, 3⟩) 8 3 0 = ⟨8, 3⟩ ∧
    initSpeechEmbeddingCache (some ⟨9, 4⟩) 7 4 9 = ⟨9, 4⟩ :=
  ⟨c7_embedding_cache_builders.1 ⟨8, 3⟩ 8 3 0 (by decide) rfl,
   c7_embedding_cache_builders.2.1 ⟨9, 4⟩ 7 4 9 (by decide) rfl⟩

/-! ## Decode-loop infrastructure lemmas -/

theorem loopRun_zero (start stop lg : Nat) (samp : Nat → Nat) :
    loopRun start stop lg samp 0 = (initBuffer start stop, false) := rfl

theorem loopRun_succ (start stop lg : Nat) (samp : Nat → Nat) (n : Nat) :
    loopRun start stop lg samp (n + 1) =
      loopIter stop lg samp (loopRun start stop lg samp n) n := by
  simp [loopRun, List.range_succ, List.foldl_append]

theorem set_append_len {α : Type} (l₁ l₂ : List α) (v : α) :
    (l₁ ++ l₂).set l₁.length v = l₁ ++ l₂.set 0 v := by
  induction l₁ with
  | nil => rfl
  | cons x xs ih => simp

theorem initBuffer_eq_mkBuf (start stop : Nat) (samp : Nat → Nat) :
    initBuffer start stop = mkBuf start stop samp 0 := by
  simp [initBuffer, mkBuf]

theorem mkBuf_length (start stop : Nat) (samp : Nat → Nat) (w : Nat)
    (h : w ≤ TOKEN_LIMIT) :
    (mkBuf start stop samp w).length = TOKEN_LIMIT + 1 := by
  simp [mkBuf]
  omega

theorem mkBuf_set (start stop : Nat) (samp : Nat → Nat) (w : Nat)
    (h : w < TOKEN_LIMIT) :
    (mkBuf start stop samp w).set (w + 1) (samp w) = mkBuf start stop samp (w + 1) := by
  have hrep : List.replicate (TOKEN_LIMIT - w) (stop + 1) =
      (stop + 1) :: List.replicate (TOKEN_LIMIT - (w + 1)) (stop + 1) := by
    have h' : TOKEN_LIMIT - w = (TOKEN_LIMIT - (w + 1)) + 1 := by omega
    rw [h', List.replicate_succ]
  have hset := set_append_len (List.map samp (List.range w))
      (List.replicate (TOKEN_LIMIT - w) (stop + 1)) (samp w)
  rw [List.length_map, List.length_range] at hset
  calc (mkBuf start stop samp w).set (w + 1) (samp w)
      = start :: ((List.map samp (List.range w) ++
          List.replicate (TOKEN_LIMIT - w) (stop + 1)).set w (samp w)) := by
        simp [mkBuf]
    _ = start :: (List.map samp (List.range w) ++
          (List.replicate (TOKEN_LIMIT - w) (stop + 1)).set 0 (samp w)) := by
        rw [hset]
    _ = mkBuf start stop samp (w + 1) := by
        rw [hrep]
        simp [mkBuf, List.range_succ]

theorem mkBuf_getElem_pad (start stop : Nat) (samp : Nat → Nat) (w j : Nat)
    (h1 : w < j) (h2 : j ≤ TOKEN_LIMIT) :
    (mkBuf start stop samp w)[j]? = some (stop + 1) := by
  obtain ⟨j', rfl⟩ : ∃ j', j = j' + 1 := ⟨j - 1, by omega⟩
  have hlen : (List.map samp (List.range w)).length = w := by simp
  have hle : (List.map samp (List.range w)).length ≤ j' := by omega
  simp only [mkBuf, List.getElem?_cons_succ]
  rw [List.getElem?_append_right hle, hlen, List.getElem?_replicate]
  have : j' - w < TOKEN_LIMIT - w := by omega
  simp [this]

theorem loopRun_spec (start stop lg : Nat) (samp : Nat → Nat) (n : Nat)
    (hn : n ≤ TOKEN_LIMIT) :
    ∃ w, w ≤ n ∧ (loopRun start stop lg samp n).1 = mkBuf start stop samp w ∧
      ((loopRun start stop lg samp n).2 = false → w = n) := by
  induction n with
  | zero =>
      exact ⟨0, le_rfl, by rw [loopRun_zero, initBuffer_eq_mkBuf start stop samp],
        fun _ => rfl⟩
  | succ k ih =>
      obtain ⟨w, hw, hbuf, hflag⟩ := ih (by omega)
      rw [loopRun_succ]
      cases hb : (loopRun start stop lg samp k).2 with
      | true =>
          have heq : loopIter stop lg samp (loopRun start stop lg samp k) k =
              loopRun start stop lg samp k := by
            simp [loopIter, hb]
          refine ⟨w, Nat.le_succ_of_le hw, by rw [heq, hbuf], fun hf => ?_⟩
          rw [heq, hb] at hf
          exact absurd hf (by simp)
      | false =>
          have hwk : w = k := hflag hb
          subst hwk
          cases hc : eosCheck lg w && decide (stop ∈ (loopRun start stop lg samp w).1) with
          | true =>
              have heq : loopIter stop lg samp (loopRun start stop lg samp w) w =
                  ((loopRun start stop lg samp w).1, true) := by
                simp [loopIter, hb, hc]
              refine ⟨w, Nat.le_succ_of_le hw, by rw [heq, hbuf], fun hf => ?_⟩
              rw [heq] at hf
              exact absurd hf (by simp)
          | false =>
              have heq : loopIter stop lg samp (loopRun start stop lg samp w) w =
                  ((loopRun start stop lg samp w).1.set (w + 1) (samp w), false) := by
                simp [loopIter, hb, hc]
              refine ⟨w + 1, le_rfl, ?_, fun _ => rfl⟩
              rw [heq]
              show (loopRun start stop lg samp w).1.set (w + 1) (samp w) =
                mkBuf start stop samp (w + 1)
              rw [hbuf, mkBuf_set start stop samp w (by omega)]

/-! ## Claim C9: pre-allocated buffer invariant -/

/-- C9: at every iteration of the decode loop the buffer keeps its allocated
length `bos_len + TOKEN_LIMIT = 1501`; every position beyond the highest index
written so far still holds the pad sentinel `stop_speech_token + 1`; and an
iteration that neither already broke nor breaks now writes exactly one new
position — the current index `i + 1`, which held the pad sentinel before the
write. -/
theorem c9_buffer_invariant (start stop lg : Nat) (samp : Nat → Nat) (n : Nat)
    (hn : n ≤ TOKEN_LIMIT) :
    ∃ w, w ≤ n ∧
      (loopRun start stop lg samp n).1.length = TOKEN_LIMIT + 1 ∧
      (∀ j, w < j → j ≤ TOKEN_LIMIT →
        (loopRun start stop lg samp n).1[j]? = some (stop + 1)) ∧
      ((loopRun start stop lg samp n).2 = false → w = n) ∧
      ((loopRun start stop lg samp n).2 = false → n < TOKEN_LIMIT →
        (eosCheck lg n && decide (stop ∈ (loopRun start stop lg samp n).1)) = false →
        (loopRun start stop lg samp (n + 1)).1 =
          (loopRun start stop lg samp n).1.set (n + 1) (samp n) ∧
        (loopRun start stop lg samp n).1[n + 1]? = some (stop + 1)) := by
  obtain ⟨w, hw, hbuf, hflag⟩ := loopRun_spec start stop lg samp n hn
  refine ⟨w, hw, ?_, ?_, hflag, ?_⟩
  · rw [hbuf]; exact mkBuf_length start stop samp w (hw.trans hn)
  · intro j h1 h2
    rw [hbuf]; exact mkBuf_getElem_pad start stop samp w j h1 h2
  · intro hfl hlt hcheck
    constructor
    · rw [loopRun_succ]
      simp [loopIter, hfl, hcheck]
    · rw [hbuf]
      have hweq := hflag hfl
      exact mkBuf_getElem_pad start stop samp w (n + 1) (by omega) (by omega)

/-- Witness for C9 at a concrete input. -/
theorem c9_buffer_invariant_witness :
    ∃ w, w ≤ 3 ∧
      (loopRun 1 2 400 (fun i => i + 5) 3).1.length = TOKEN_LIMIT + 1 ∧
      (∀ j, w < j → j ≤ TOKEN_LIMIT →
        (loopRun 1 2 400 (fun i => i + 5) 3).1[j]? = some (2 + 1)) ∧
      ((loopRun 1 2 400 (fun i => i + 5) 3).2 = false → w = 3) ∧
      ((loopRun 1 2 400 (fun i => i + 5) 3).2 = false → 3 < TOKEN_LIMIT →
        (eosCheck 400 3 && decide (2 ∈ (loopRun 1 2 400 (fun i => i + 5) 3).1)) = false →
        (loopRun 1 2 400 (fun i => i + 5) 4).1 =
          (loopRun 1 2 400 (fun i => i + 5) 3).1.set 4 ((fun i => i + 5) 3) ∧
        (loopRun 1 2 400 (fun i => i + 5) 3).1[4]? = some (2 + 1)) :=
  c9_buffer_invariant 1 2 400 (fun i => i + 5) 3 (by norm_num [TOKEN_LIMIT])

/-! ## First-stop-index lemmas -/

theorem firstStopIdx_getElem (stop : Nat) :
    ∀ (l : List Nat) (k : Nat), firstStopIdx stop l = some k → l[k]? = some stop := by
  intro l
  induction l with
  | nil => intro k h; simp [firstStopIdx] at h
  | cons x xs ih =>
      intro k h
      by_cases hx : x = stop
      · simp [firstStopIdx, hx] at h
        subst h; simp [hx]
      · simp only [firstStopIdx, if_neg hx] at h
        cases hfs : firstStopIdx stop xs with
        | none => rw [hfs] at h; simp at h
        | some j =>
            rw [hfs] at h
            simp at h
            subst h
            simpa using ih j hfs

theorem firstStopIdx_min (stop : Nat) :
    ∀ (l : List Nat) (k : Nat), firstStopIdx stop l = some k →
      ∀ j, j < k → l[j]? ≠ some stop := by
  intro l
  induction l with
  | nil => intro k h; simp [firstStopIdx] at h
  | cons x xs ih =>
      intro k h j hj
      by_cases hx : x = stop
      · simp [firstStopIdx, hx] at h; omega
      · simp only [firstStopIdx, if_neg hx] at h
        cases hfs : firstStopIdx stop xs with
        | none => rw [hfs] at h; simp at h
        | some i =>
            rw [hfs] at h
            simp at h
            subst h
            cases j with
            | zero => simpa using hx
            | succ j' =>
                have := ih i hfs j' (by omega)
                simpa using this

theorem firstStopIdx_none (stop : Nat) :
    ∀ l : List Nat, firstStopIdx stop l = none → stop ∉ l := by
  intro l
  induction l with
  | nil => intro _ h; simp at h
  | cons x xs ih =>
      intro h
      by_cases hx : x = stop
      · simp [firstStopIdx, hx] at h
      · simp only [firstStopIdx, if_neg hx] at h
        cases hfs : firstStopIdx stop xs with
        | none =>
            intro hmem
            rcases List.mem_cons.1 hmem with h1 | h2
            · exact hx h1.symm
            · exact ih hfs h2
        | some j => rw [hfs] at h; simp at h

theorem firstStopIdx_lt_length (stop : Nat) (l : List Nat) (k : Nat)
    (h : firstStopIdx stop l = some k) : k < l.length := by
  have := firstStopIdx_getElem stop l k h
  exact (List.getElem?_eq_some.1 this).1

theorem firstStop_le_written (start stop : Nat) (samp : Nat → Nat) (w k : Nat)
    (hw : w ≤ TOKEN_LIMIT)
    (h : firstStopIdx stop (mkBuf start stop samp w) = some k) : k ≤ w := by
  by_contra hcon
  push_neg at hcon
  have hk := firstStopIdx_getElem stop _ k h
  have hkl : k < TOKEN_LIMIT + 1 := by
    have := firstStopIdx_lt_length stop _ k h
    rwa [mkBuf_length start stop samp w hw] at this
  have hpad := mkBuf_getElem_pad start stop samp w k hcon (by omega)
  rw [hpad] at hk
  simp at hk

/-! ## Repetition-penalty lemmas and claim C10 -/

theorem repPenaltyAux_getElem {α : Type} [LinearOrderedField α] (p : α) (hist : List Nat) :
    ∀ (l : List α) (t i : Nat),
      (repPenaltyAux p hist t l)[i]? =
        (l[i]?).map (fun x => if (t + i) ∈ hist then x / p else x) := by
  intro l
  induction l with
  | nil => intro t i; simp [repPenaltyAux]
  | cons x xs ih =>
      intro t i
      cases i with
      | zero => simp [repPenaltyAux]
      | succ j =>
          have := ih (t + 1) j
          simp only [repPenaltyAux, List.getElem?_cons_succ]
          rw [this]
          have harith : t + 1 + j = t + (j + 1) := by omega
          rw [harith]

theorem repPenalty_getElem {α : Type} [LinearOrderedField α] (p : α) (hist : List Nat)
    (l : List α) (i : Nat) (x : α) (hmem : i ∈ hist) (hx : l[i]? = some x) :
    (repPenalty p hist l)[i]? = some (x / p) := by
  rw [repPenalty, repPenaltyAux_getElem p hist l 0 i, hx]
  simp [hmem]

/-- C10: at every iteration of the decode loop at which a step executes, the
history tensor handed to the repetition-penalty stage is the entire
fixed-length token buffer — full allocated length, BOS at the head, and the
pad sentinel `stop_speech_token + 1` still present in the tail — and
consequently the repetition-penalty stage treats the pad sentinel as an
already-generated token: its logit is mapped to `logit / penalty` at every
step. -/
theorem c10_rep_penalty_history (start stop lg : Nat) (samp : Nat → Nat) (n : Nat)
    (hn : n < TOKEN_LIMIT) :
    stepHistory start stop lg samp n = (loopRun start stop lg samp n).1 ∧
    (stepHistory start stop lg samp n).length = TOKEN_LIMIT + 1 ∧
    (stepHistory start stop lg samp n).head? = some start ∧
    (stop + 1) ∈ stepHistory start stop lg samp n ∧
    ∀ (l : List ℚ) (p : ℚ) (x : ℚ), l[stop + 1]? = some x →
      (repPenalty p (stepHistory start stop lg samp n) l)[stop + 1]? = some (x / p) := by
  obtain ⟨w, hw, hbuf, _⟩ := loopRun_spec start stop lg samp n (by omega)
  have hhist : stepHistory start stop lg samp n = mkBuf start stop samp w := hbuf
  have hpadmem : (stop + 1) ∈ stepHistory start stop lg samp n := by
    rw [hhist, mkBuf]
    refine List.mem_cons_of_mem _ (List.mem_append_right _ ?_)
    refine List.mem_replicate.2 ⟨?_, rfl⟩
    omega
  refine ⟨rfl, ?_, ?_, hpadmem, ?_⟩
  · rw [hhist]; exact mkBuf_length start stop samp w (by omega)
  · rw [hhist, mkBuf]; rfl
  · intro l p x hx
    exact repPenalty_getElem p _ l (stop + 1) x hpadmem hx

/-- Witness for C10 at a concrete input. -/
theorem c10_rep_penalty_history_witness :
    stepHistory 1 5 400 (fun i => i) 2 = (loopRun 1 5 400 (fun i => i) 2).1 ∧
    (stepHistory 1 5 400 (fun i => i) 2).length = TOKEN_LIMIT + 1 ∧
    (stepHistory 1 5 400 (fun i => i) 2).head? = some 1 ∧
    (5 + 1) ∈ stepHistory 1 5 400 (fun i => i) 2 ∧
    ∀ (l : List ℚ) (p : ℚ) (x : ℚ), l[5 + 1]? = some x →
      (repPenalty p (stepHistory 1 5 400 (fun i => i) 2) l)[5 + 1]? = some (x / p) :=
  c10_rep_penalty_history 1 5 400 (fun i => i) 2 (by norm_num [TOKEN_LIMIT])

/-! ## Slice lemmas and direct-loop characterization -/

theorem getLast?_take_succ {α : Type} (l : List α) (k : Nat) (h : k < l.length) :
    (l.take (k + 1)).getLast? = l[k]? := by
  have hlen : (l.take (k + 1)).length = k + 1 := by
    rw [List.length_take]; omega
  rw [List.getLast?_eq_getElem?, hlen]
  simp only [Nat.add_sub_cancel]
  rw [List.getElem?_take, if_pos (by omega)]

theorem map_range_shift (samp : Nat → Nat) (i f : Nat) :
    List.map (fun k => samp (i + k)) (List.range (f + 1)) =
      samp i :: List.map (fun k => samp (i + 1 + k)) (List.range f) := by
  rw [List.range_succ_eq_map, List.map_cons, List.map_map]
  congr 1
  apply List.map_congr_left
  intro k _
  simp only [Function.comp_apply]
  congr 1
  omega

theorem directGo_no_stop (stop : Nat) (samp : Nat → Nat) :
    ∀ (fuel i : Nat) (acc : List Nat), (∀ k, k < fuel → samp (i + k) ≠ stop) →
      directGo stop samp i fuel acc =
        acc ++ List.map (fun k => samp (i + k)) (List.range fuel) := by
  intro fuel
  induction fuel with
  | zero => intro i acc _; simp [directGo]
  | succ f ih =>
      intro i acc h
      have h0 : samp i ≠ stop := by
        have := h 0 (by omega); simpa using this
      have hrest : ∀ k, k < f → samp (i + 1 + k) ≠ stop := by
        intro k hk
        have harith : i + 1 + k = i + (k + 1) := by omega
        rw [harith]
        exact h (k + 1) (by omega)
      simp only [directGo, if_neg h0]
      rw [ih (i + 1) (acc ++ [samp i]) hrest]
      rw [map_range_shift samp i f]
      simp

theorem directGo_stop_at (stop : Nat) (samp : Nat → Nat) :
    ∀ (fuel i j : Nat) (acc : List Nat), j < fuel → samp (i + j) = stop →
      (∀ k, k < j → samp (i + k) ≠ stop) →
      directGo stop samp i fuel acc =
        acc ++ List.map (fun k => samp (i + k)) (List.range j) := by
  intro fuel
  induction fuel with
  | zero => intro i j acc hj; exact absurd hj (Nat.not_lt_zero j)
  | succ f ih =>
      intro i j acc hj hstop hpre
      cases j with
      | zero =>
          have h0 : samp i = stop := by simpa using hstop
          simp only [directGo, if_pos h0]
          simp
      | succ j' =>
          have h0 : samp i ≠ stop := by
            have := hpre 0 (by omega); simpa using this
          have hstop' : samp (i + 1 + j') = stop := by
            have harith : i + 1 + j' = i + (j' + 1) := by omega
            rw [harith]; exact hstop
          have hpre' : ∀ k, k < j' → samp (i + 1 + k) ≠ stop := by
            intro k hk
            have harith : i + 1 + k = i + (k + 1) := by omega
            rw [harith]
            exact hpre (k + 1) (by omega)
          simp only [directGo, if_neg h0]
          rw [ih (i + 1) j' (acc ++ [samp i]) (by omega) hstop' hpre']
          rw [map_range_shift samp i j']
          simp

/-! ## Claim C3: stop-token slice on completion -/

/-- C3 (amended): the optimized driver returns the buffer sliced at the first
occurrence of the stop token inclusive — exactly `K + 1` tokens ending with
the stop token when the first occurrence is at buffer position `K`, never
more — and the full budget prefix of length `bos_len + max_new_tokens` when no
stop token occurs.  The direct-inference loop, by contrast, stops at the first
sampled stop token but returns only the tokens sampled before it, excluding
both the BOS and the stop token (and the full `max_new_tokens` sampled tokens
when the stop token is never sampled). -/
theorem c3_stop_token_slice (start stop lg seqLen mcl mntReq : Nat) (samp : Nat → Nat)
    (M : Int) (hM : M = clampMNT mcl seqLen mntReq) (h0 : 0 ≤ M)
    (hlt : M < TOKEN_LIMIT) :
    (∃ l, inferenceOptimizedTokens start stop lg seqLen mcl mntReq samp = Except.ok l ∧
      (∀ k, firstStopIdx stop (loopRun start stop lg samp M.toNat).1 = some k →
          l = (loopRun start stop lg samp M.toNat).1.take (k + 1) ∧
          l.length = k + 1 ∧ l.getLast? = some stop ∧
          (∀ j, j < k → (loopRun start stop lg samp M.toNat).1[j]? ≠ some stop)) ∧
      (firstStopIdx stop (loopRun start stop lg samp M.toNat).1 = none →
          l = (loopRun start stop lg samp M.toNat).1.take (1 + M.toNat) ∧
          l.length = 1 + M.toNat ∧
          stop ∉ (loopRun start stop lg samp M.toNat).1)) ∧
    (∀ (mnt : Nat) (s : Nat → Nat), (∀ i, i < mnt → s i ≠ stop) →
        directGenerateFast start stop mnt s = List.map s (List.range mnt)) ∧
    (∀ (mnt j : Nat) (s : Nat → Nat), j < mnt → s j = stop →
        (∀ i, i < j → s i ≠ stop) →
        directGenerateFast start stop mnt s = List.map s (List.range j)) := by
  have hMt : M.toNat ≤ TOKEN_LIMIT := by omega
  obtain ⟨w, hw, hbuf, _⟩ := loopRun_spec start stop lg samp M.toNat hMt
  have hBlen : (loopRun start stop lg samp M.toNat).1.length = TOKEN_LIMIT + 1 := by
    rw [hbuf]; exact mkBuf_length start stop samp w (le_trans hw hMt)
  have hdrv : inferenceOptimizedTokens start stop lg seqLen mcl mntReq samp =
      match firstStopIdx stop (loopRun start stop lg samp M.toNat).1 with
      | some k => Except.ok ((loopRun start stop lg samp M.toNat).1.take (k + 1))
      | none => Except.ok (pyTake (1 + M) (loopRun start stop lg samp M.toNat).1) := by
    simp only [inferenceOptimizedTokens, ← hM]
    rw [if_neg (by omega)]
  refine ⟨?_, ?_, ?_⟩
  · cases hfs : firstStopIdx stop (loopRun start stop lg samp M.toNat).1 with
    | some k =>
        have hkB : k < (loopRun start stop lg samp M.toNat).1.length :=
          firstStopIdx_lt_length stop _ k hfs
        refine ⟨(loopRun start stop lg samp M.toNat).1.take (k + 1),
          by rw [hdrv, hfs], ?_, ?_⟩
        · intro k' hk'
          have hkk : k = k' := by injection hk'
          subst hkk
          refine ⟨rfl, ?_, ?_, ?_⟩
          · rw [List.length_take]; omega
          · rw [getLast?_take_succ _ k hkB]
            exact firstStopIdx_getElem stop _ k hfs
          · exact firstStopIdx_min stop _ k hfs
        · intro hnone
          exact absurd hnone (by simp)
    | none =>
        have hpt : pyTake (1 + M) (loopRun start stop lg samp M.toNat).1 =
            (loopRun start stop lg samp M.toNat).1.take (1 + M.toNat) := by
          rw [pyTake, if_pos (by omega)]
          congr 1
          omega
        refine ⟨(loopRun start stop lg samp M.toNat).1.take (1 + M.toNat),
          by rw [hdrv, hfs, hpt], ?_, ?_⟩
        · intro k' hk'
          exact absurd hk' (by simp)
        · intro _
          refine ⟨rfl, ?_, firstStopIdx_none stop _ hfs⟩
          rw [List.length_take]
          omega
  · intro mnt s h
    rw [directGenerateFast,
      directGo_no_stop stop s mnt 0 [start] (fun k hk => by simpa using h k hk)]
    simp [Nat.zero_add]
  · intro mnt j s hj hstop hpre
    rw [directGenerateFast,
      directGo_stop_at stop s mnt 0 j [start] hj (by simpa using hstop)
        (fun k hk => by simpa using hpre k hk)]
    simp [Nat.zero_add]

/-- Witness for C3 at a concrete input. -/
theorem c3_stop_token_slice_witness :
    (∃ l, inferenceOptimizedTokens 1 2 400 10 30 5 (fun i => i + 7) = Except.ok l ∧
      (∀ k, firstStopIdx 2 (loopRun 1 2 400 (fun i => i + 7) (5 : Int).toNat).1 = some k →
          l = (loopRun 1 2 400 (fun i => i + 7) (5 : Int).toNat).1.take (k + 1) ∧
          l.length = k + 1 ∧ l.getLast? = some 2 ∧
          (∀ j, j < k →
            (loopRun 1 2 400 (fun i => i + 7) (5 : Int).toNat).1[j]? ≠ some 2)) ∧
      (firstStopIdx 2 (loopRun 1 2 400 (fun i => i + 7) (5 : Int).toNat).1 = none →
          l = (loopRun 1 2 400 (fun i => i + 7) (5 : Int).toNat).1.take (1 + (5 : Int).toNat) ∧
          l.length = 1 + (5 : Int).toNat ∧
          2 ∉ (loopRun 1 2 400 (fun i => i + 7) (5 : Int).toNat).1)) ∧
    (∀ (mnt : Nat) (s : Nat → Nat), (∀ i, i < mnt → s i ≠ 2) →
        directGenerateFast 1 2 mnt s = List.map s (List.range mnt)) ∧
    (∀ (mnt j : Nat) (s : Nat → Nat), j < mnt → s j = 2 →
        (∀ i, i < j → s i ≠ 2) →
        directGenerateFast 1 2 mnt s = List.map s (List.range j)) :=
  c3_stop_token_slice 1 2 400 10 30 5 (fun i => i + 7) 5 (by decide) (by decide)
    (by norm_num [TOKEN_LIMIT])

/-- C3 counterexample: in the direct-inference loop the returned sequence does
not end with the stop token.  With stop token 5 and a sampler that emits 7 at
step 0 and the stop token at step 1, the loop returns `[7]` — one token, the
stop token absent — whereas the claim requires the slice up to and including
the stop token. -/
theorem c3_counterexample :
    directGenerateFast 9 5 3 (fun i => if i = 1 then 5 else 7) = [7] ∧
    (5 : Nat) ∉ directGenerateFast 9 5 3 (fun i => if i = 1 then 5 else 7) ∧
    (directGenerateFast 9 5 3 (fun i => if i = 1 then 5 else 7)).getLast? ≠ some 5 := by
  decide

/-! ## Claim C4: token-budget clamp -/

/-- C4 (amended): when the caller's `max_new_tokens` exceeds
`max_cache_len - seq_len`, the driver silently reduces it to
`max_cache_len - seq_len`; provided the clamped budget stays below the hard
`TOKEN_LIMIT` ceiling no error is raised, and the returned token sequence has
at most `1 + (max_cache_len - seq_len)` tokens — the BOS slot is part of the
returned slice, so the bound exceeds `max_cache_len - seq_len` itself by one. -/
theorem c4_token_budget_clamp (start stop lg seqLen mcl mntReq : Nat) (samp : Nat → Nat)
    (M : Int) (hM : M = clampMNT mcl seqLen mntReq)
    (hseq : seqLen ≤ mcl)
    (hexceed : (mcl : Int) < (seqLen : Int) + (mntReq : Int))
    (hlt : M < TOKEN_LIMIT) :
    M = (mcl : Int) - (seqLen : Int) ∧
    ∃ l, inferenceOptimizedTokens start stop lg seqLen mcl mntReq samp = Except.ok l ∧
      (l.length : Int) ≤ 1 + ((mcl : Int) - (seqLen : Int)) := by
  have hMeq : M = (mcl : Int) - (seqLen : Int) := by
    rw [hM, clampMNT, if_pos hexceed]
  have h0 : 0 ≤ M := by omega
  have hMt : M.toNat ≤ TOKEN_LIMIT := by omega
  obtain ⟨w, hw, hbuf, _⟩ := loopRun_spec start stop lg samp M.toNat hMt
  have hBlen : (loopRun start stop lg samp M.toNat).1.length = TOKEN_LIMIT + 1 := by
    rw [hbuf]; exact mkBuf_length start stop samp w (le_trans hw hMt)
  have hMM : (M.toNat : Int) = M := Int.toNat_of_nonneg h0
  have hdrv : inferenceOptimizedTokens start stop lg seqLen mcl mntReq samp =
      match firstStopIdx stop (loopRun start stop lg samp M.toNat).1 with
      | some k => Except.ok ((loopRun start stop lg samp M.toNat).1.take (k + 1))
      | none => Except.ok (pyTake (1 + M) (loopRun start stop lg samp M.toNat).1) := by
    simp only [inferenceOptimizedTokens, ← hM]
    rw [if_neg (by omega)]
  refine ⟨hMeq, ?_⟩
  cases hfs : firstStopIdx stop (loopRun start stop lg samp M.toNat).1 with
  | some k =>
      have hk : k ≤ w := by
        rw [hbuf] at hfs
        exact firstStop_le_written start stop samp w k (le_trans hw hMt) hfs
      refine ⟨_, by rw [hdrv, hfs], ?_⟩
      rw [List.length_take, hBlen]
      omega
  | none =>
      have hpt : pyTake (1 + M) (loopRun start stop lg samp M.toNat).1 =
          (loopRun start stop lg samp M.toNat).1.take (1 + M.toNat) := by
        rw [pyTake, if_pos (by omega)]
        congr 1
        omega
      refine ⟨_, by rw [hdrv, hfs, hpt], ?_⟩
      rw [List.length_take, hBlen]
      omega

/-- Witness for C4 at a concrete input. -/
theorem c4_token_budget_clamp_witness :
    (10 : Int) = (20 : Int) - (10 : Int) ∧
    ∃ l, inferenceOptimizedTokens 1 2 400 10 20 50 (fun _ => 7) = Except.ok l ∧
      (l.length : Int) ≤ 1 + ((20 : Int) - (10 : Int)) :=
  c4_token_budget_clamp 1 2 400 10 20 50 (fun _ => 7) 10 (by decide) (by decide)
    (by decide) (by norm_num [TOKEN_LIMIT])

/-- C4 counterexample: with prompt length 10, cache capacity 20 and a request
for 50 new tokens, the budget is clamped to 10, no stop token is ever sampled,
and the driver returns 11 tokens — the BOS plus 10 generated tokens — which is
strictly longer than `max_cache_len - prompt_length = 10`, refuting the
claimed output bound. -/
theorem firstStopIdx_eq_none_of_not_mem (stop : Nat) :
    ∀ l : List Nat, stop ∉ l → firstStopIdx stop l = none := by
  intro l
  induction l with
  | nil => intro _; rfl
  | cons x xs ih =>
      intro h
      have hx : ¬(x = stop) := fun hc => h (hc ▸ List.mem_cons_self x xs)
      simp only [firstStopIdx, if_neg hx]
      rw [ih (fun hm => h (List.mem_cons_of_mem x hm))]
      rfl

theorem loopRun_flag_false (start stop lg : Nat) (samp : Nat → Nat) :
    ∀ n, (∀ i, i < n → eosCheck lg i = false) →
      (loopRun start stop lg samp n).2 = false := by
  intro n
  induction n with
  | zero => intro _; rfl
  | succ k ih =>
      intro h
      rw [loopRun_succ]
      have hk := ih (fun i hi => h i (by omega))
      simp [loopIter, hk, h k (by omega)]

theorem inferenceOptimized_eq_none (start stop lg seqLen mcl mntReq : Nat)
    (samp : Nat → Nat) (M : Int) (hM : M = clampMNT mcl seqLen mntReq)
    (hlt : M < TOKEN_LIMIT)
    (hfs : firstStopIdx stop (loopRun start stop lg samp M.toNat).1 = none) :
    inferenceOptimizedTokens start stop lg seqLen mcl mntReq samp =
      Except.ok (pyTake (1 + M) (loopRun start stop lg samp M.toNat).1) := by
  simp only [inferenceOptimizedTokens, ← hM]
  rw [if_neg (by omega), hfs]

theorem c4_counterexample :
    ∃ l, inferenceOptimizedTokens 1 2 400 10 20 50 (fun _ => 7) = Except.ok l ∧
      l.length = 11 ∧ ¬(l.length ≤ 20 - 10) := by
  have hM : clampMNT ((20 : Nat) : Int) ((10 : Nat) : Int) ((50 : Nat) : Int) = 10 := by
    norm_num [clampMNT]
  have hfl : (loopRun 1 2 400 (fun _ => 7) 10).2 = false :=
    loopRun_flag_false 1 2 400 (fun _ => 7) 10
      (fun i hi => by simp [eosCheck]; omega)
  obtain ⟨w, hw, hbuf, hflag⟩ :=
    loopRun_spec 1 2 400 (fun _ => 7) 10 (by norm_num [TOKEN_LIMIT])
  have hw10 : w = 10 := hflag hfl
  subst hw10
  have hnm : (2 : Nat) ∉ (loopRun 1 2 400 (fun _ => 7) 10).1 := by
    rw [hbuf]
    intro hmem
    simp only [mkBuf, List.mem_cons, List.mem_append, List.mem_map,
      List.mem_replicate] at hmem
    rcases hmem with h | ⟨⟨a, _, ha⟩ | h⟩
    · omega
    · omega
    · omega
  have hfs : firstStopIdx 2 (loopRun 1 2 400 (fun _ => 7) 10).1 = none :=
    firstStopIdx_eq_none_of_not_mem 2 _ hnm
  have hdrv : inferenceOptimizedTokens 1 2 400 10 20 50 (fun _ => 7) =
      Except.ok ((loopRun 1 2 400 (fun _ => 7) 10).1.take 11) := by
    have h := inferenceOptimized_eq_none 1 2 400 10 20 50 (fun _ => 7) 10
      (by rw [hM]) (by norm_num [TOKEN_LIMIT]) hfs
    rw [h, pyTake, if_pos (by norm_num)]
    rfl
  refine ⟨_, hdrv, ?_, ?_⟩
  · rw [List.length_take, hbuf,
      mkBuf_length 1 2 (fun _ => 7) 10 (by norm_num [TOKEN_LIMIT])]
    norm_num [TOKEN_LIMIT]
  · rw [List.length_take, hbuf,
      mkBuf_length 1 2 (fun _ => 7) 10 (by norm_num [TOKEN_LIMIT])]
    norm_num [TOKEN_LIMIT]

/-! ## Claim C8: determinism for a fixed sampler stream -/

/-- C8: the generation drivers are deterministic functions of their inputs and
of the sampler stream: the decode loops consume randomness only through the
stream of `torch.multinomial` draws, so two runs with identical parameters and
pointwise-equal sampler streams (as produced by seeding the RNG identically)
return identical token sequences. -/
theorem c8_seed_determinism (start stop lg seqLen mcl mntReq : Nat)
    (s₁ s₂ : Nat → Nat) (h : ∀ i, s₁ i = s₂ i) :
    inferenceOptimizedTokens start stop lg seqLen mcl mntReq s₁ =
      inferenceOptimizedTokens start stop lg seqLen mcl mntReq s₂ ∧
    ∀ mnt, directGenerateFast start stop mnt s₁ = directGenerateFast start stop mnt s₂ := by
  have hs : s₁ = s₂ := funext h
  exact ⟨by rw [hs], fun mnt => by rw [hs]⟩

/-- Witness for C8 at a concrete input. -/
theorem c8_seed_determinism_witness :
    inferenceOptimizedTokens 1 2 400 10 20 5 (fun i => i % 3 + 4) =
      inferenceOptimizedTokens 1 2 400 10 20 5 (fun i => 4 + i % 3) ∧
    ∀ mnt, directGenerateFast 1 2 mnt (fun i => i % 3 + 4) =
      directGenerateFast 1 2 mnt (fun i => 4 + i % 3) :=
  c8_seed_determinism 1 2 400 10 20 5 (fun i => i % 3 + 4) (fun i => 4 + i % 3)
    (fun i => Nat.add_comm (i % 3) 4)

/-! ## Claim C6: guard discipline of the captured-graph machinery -/

theorem replaysGuarded_loopTrace (addrs : Nat → Nat) :
    ∀ (fuel i : Nat) (st : WrapperState) (f : Bool),
      replaysGuarded (loopTrace addrs st i fuel) f = true := by
  intro fuel
  induction fuel with
  | zero => intro i st f; rfl
  | succ n ih =>
      intro i st f
      by_cases h : (st.hasGraph && (st.staticAddr == addrs i)) = true
      · simp only [loopTrace, wrapperCall, if_pos h, List.cons_append,
          List.nil_append, replaysGuarded, Bool.true_and]
        exact ih (i + 1) st false
      · simp only [loopTrace, wrapperCall, if_neg h, List.cons_append,
          List.nil_append, replaysGuarded, Bool.true_and]
        exact ih (i + 1) ⟨addrs i, true⟩ false

/-- C6: in every decode-loop trace, a captured graph is never replayed without
the guard check having been performed first: scanning the full event trace of
a generation request (the driver guard followed by the wrapped loop), every
replay event is preceded by a guard event with no other replay in between.
Moreover a wrapper call with no valid capture (or a stale static-tensor
address) emits a failed guard and a re-capture before the replay, and records
the fresh address, while a wrapper call whose guard validates the captured
address replays directly. -/
theorem c6_guard_before_replay :
    (∀ (addrs : Nat → Nat) (st : WrapperState) (steps : Nat),
        replaysGuarded (decodeGraphTrace addrs st steps) false = true) ∧
    (∀ a cur : Nat, (wrapperCall ⟨a, false⟩ cur).1 =
        [GraphEvent.guardEv false, GraphEvent.capture, GraphEvent.replay]) ∧
    (∀ a cur : Nat, (wrapperCall ⟨a, false⟩ cur).2 = ⟨cur, true⟩) ∧
    (∀ a : Nat, (wrapperCall ⟨a, true⟩ a).1 =
        [GraphEvent.guardEv true, GraphEvent.replay]) := by
  refine ⟨fun addrs st steps => ?_, fun a cur => rfl, fun a cur => rfl, fun a => ?_⟩
  · by_cases h : (st.hasGraph && (st.staticAddr == addrs 0)) = true
    · simp only [decodeGraphTrace, guardOnly, if_pos h, replaysGuarded]
      exact replaysGuarded_loopTrace addrs steps 0 st true
    · simp only [decodeGraphTrace, guardOnly, if_neg h, replaysGuarded]
      exact replaysGuarded_loopTrace addrs steps 0 ⟨st.staticAddr, false⟩ true
  · simp [wrapperCall]

/-! ## Claim C1: processor pipeline order -/

theorem repPenaltyAux_map_div {α : Type} [LinearOrderedField α] (p T : α)
    (hist : List Nat) :
    ∀ (l : List α) (t : Nat),
      repPenaltyAux p hist t (l.map (· / T)) =
        (repPenaltyAux p hist t l).map (· / T) := by
  intro l
  induction l with
  | nil => intro t; rfl
  | cons x xs ih =>
      intro t
      simp only [List.map_cons, repPenaltyAux, ih]
      congr 1
      by_cases h : t ∈ hist
      · simp [h, div_right_comm]
      · simp [h]

theorem repPenalty_tempScale_comm {α : Type} [LinearOrderedField α] (p T : α)
    (hist : List Nat) (l : List α) :
    repPenalty p hist (tempScale T l) = tempScale T (repPenalty p hist l) := by
  by_cases hT : T = 1
  · simp [tempScale, hT]
  · simp only [tempScale, if_pos hT, ne_eq]
    exact repPenaltyAux_map_div p T hist l 0

/-- C1 (amended): the step function of the optimized path applies the
processor pipeline to the CFG-combined logits exactly in the claimed order —
repetition penalty, then temperature, then min-p, then top-p — before
sampling.  The direct-inference loop applies temperature first and guards the
other stages (repetition penalty only once the history has more than the BOS
token, min-p only for `min_p > 0`, top-p only for `top_p < 1`); on steps where
all three guarded stages are active its logits nevertheless coincide with the
claimed-order pipeline, because the repetition penalty commutes with the
temperature division. -/
theorem c1_pipeline_order :
    (∀ (w p T m q : ℝ) (rows : List (List ℝ)) (hist : List Nat),
        generateT3TokenLogits w p T m q rows hist =
          claimedStepPipeline p T m q hist (stepCfgLogits w rows)) ∧
    (∀ (p T m q : ℝ) (hist : List Nat) (l : List ℝ),
        1 < hist.length → 0 < m → q < 1 →
        directStepPipeline p T m q hist l = claimedStepPipeline p T m q hist l) := by
  refine ⟨fun w p T m q rows hist => rfl, fun p T m q hist l h1 hm hq => ?_⟩
  simp only [directStepPipeline, claimedStepPipeline, if_pos h1, if_pos hm, if_pos hq]
  rw [repPenalty_tempScale_comm]

/-- Witness for C1 at a concrete input. -/
theorem c1_pipeline_order_witness :
    directStepPipeline 2 3 (1 / 2) (1 / 2) [0, 1] [1, 2] =
      claimedStepPipeline 2 3 (1 / 2) (1 / 2) [0, 1] [1, 2] :=
  c1_pipeline_order.2 2 3 (1 / 2) (1 / 2) [0, 1] [1, 2] (by decide) (by norm_num)
    (by norm_num)

theorem softmaxR_singleton (x : ℝ) : softmaxR [x] = [1] := by
  simp [softmaxR, div_self (Real.exp_ne_zero x)]

theorem minPWarp_zero_singleton (x : ℝ) : minPWarp 0 [x] = [x] := by
  simp [minPWarp, softmaxR_singleton]

theorem topPWarp_one_singleton (x : ℝ) : topPWarp 1 [x] = [x] := by
  simp [topPWarp, softmaxR_singleton]

/-- C1 counterexample: on the first decode step of the direct-inference loop
(history `[0]` holding only the BOS token) with penalty 2, temperature 1,
`min_p = 0` and `top_p = 1`, the loop leaves the single logit `1` untouched —
the repetition-penalty stage is skipped because `len(generated_tokens) = 1` —
whereas the claimed-order pipeline penalizes the BOS logit down to `1/2`.  So
the direct path does not apply the claimed pipeline on every decode step. -/
theorem c1_counterexample :
    directStepPipeline 2 1 0 1 [0] [1] ≠ claimedStepPipeline 2 1 0 1 [0] [1] := by
  have hd : directStepPipeline 2 1 0 1 [0] [1] = [(1 : ℝ)] := by
    simp [directStepPipeline, tempScale]
  have hrp : repPenalty (2 : ℝ) [0] [(1 : ℝ)] = [(1 : ℝ) / 2] := by
    simp [repPenalty, repPenaltyAux]
  have hts : tempScale (1 : ℝ) [(1 : ℝ) / 2] = [(1 : ℝ) / 2] := by
    simp [tempScale]
  have hc : claimedStepPipeline 2 1 0 1 [0] [1] = [(1 : ℝ) / 2] := by
    rw [claimedStepPipeline, hrp, hts, minPWarp_zero_singleton, topPWarp_one_singleton]
  rw [hd, hc]
  intro h
  have h' : (1 : ℝ) = 1 / 2 := by injection h
  norm_num at h'
